import Mathlib

/-!
Verification of the multimodal 2D-ResNet brain-tumor classifier
(`multimodal-2D-ResNet+3D-features.py`) against its natural-language
specification.  Each Python fragment relevant to a claim is shallowly
embedded as an executable Lean definition (machine floats are modelled by
rationals; the stateful dataset and training loop become explicit state
passing), and the claims are settled as theorems about those definitions.
-/

namespace MM

/-! ## GetLoader transform selection (source lines 113-196)

`GetLoader.__init__` sets `self.transform = train_compose` for the train
split and `test_compose` otherwise.  `GetLoader.__getitem__` (lines
174-183) looks up the patient label; on label 2 it leaves the transform
alone, otherwise (label 4) on the train split it assigns
`self.transform = test_compose` — a mutation of the dataset object that
persists across later `__getitem__` calls — and then applies
`self.transform` to the stacked image. -/

inductive Pipeline where
  | train_compose : Pipeline
  | test_compose : Pipeline
deriving DecidableEq

/-- Default patient id used only as a `List.getD` fallback. -/
def dfltId : String := ""

/-- One `__getitem__` call, restricted to its transform behaviour: given the
split flag, the `people_classify` label map, the current value of
`self.transform` and the fetched slice's patient id, return the transform
applied to this slice and the value of `self.transform` afterwards
(source lines 174-183: the label-4 branch reassigns `self.transform`
before the transform is applied). -/
def getitemStep (isTrain : Bool) (labelOf : String → ℕ) (tr : Pipeline) (pid : String) :
    Pipeline × Pipeline :=
  if labelOf pid = 2 then (tr, tr)
  else if isTrain then (Pipeline.test_compose, Pipeline.test_compose)
  else (tr, tr)

/-- Transforms applied to a sequence of fetched slices, threading the mutable
`self.transform` attribute through successive `__getitem__` calls. -/
def appliedTransforms (isTrain : Bool) (labelOf : String → ℕ) :
    Pipeline → List String → List Pipeline
  | _, [] => []
  | tr, pid :: rest =>
    (getitemStep isTrain labelOf tr pid).1 ::
      appliedTransforms isTrain labelOf (getitemStep isTrain labelOf tr pid).2 rest

/-! ## Training-time prediction accumulator (source lines 592-595, 654-655)

`dict_last` maps each train-patient id to a list of per-slice softmax
vectors.  It is built from `train.csv` once, before the `for i_epoch`
loop, and each epoch's batch loop appends `outputs[i]` to
`dict_last[str(idd[i])]`; nothing ever clears it between epochs. -/

/-- Append one slice's softmax vector to its patient's accumulator entry
(source line 655). -/
def appendSlice (d : String → List (ℚ × ℚ)) (s : String × (ℚ × ℚ)) :
    String → List (ℚ × ℚ) :=
  fun pid => if s.1 = pid then d pid ++ [s.2] else d pid

/-- One epoch's batch loop, restricted to its effect on `dict_last`:
append every slice output of that epoch in order. -/
def runEpochAccum (d : String → List (ℚ × ℚ)) (outs : List (String × (ℚ × ℚ))) :
    String → List (ℚ × ℚ) :=
  outs.foldl appendSlice d

/-- The freshly-built `dict_last`: every patient id maps to `[]`
(source lines 592-595). -/
def dict_last_init : String → List (ℚ × ℚ) := fun _ => []

/-- `dict_last` at the end of the run: built once before the epoch loop and
mutated by every epoch in turn (source line 592 has no counterpart inside
the loop, unlike `dict_test` at line 713). -/
def dict_last_after (epochs : List (List (String × (ℚ × ℚ)))) : String → List (ℚ × ℚ) :=
  epochs.foldl runEpochAccum dict_last_init

/-- The slice outputs one epoch contributes to one patient, in order. -/
def patientOutputs (outs : List (String × (ℚ × ℚ))) (pid : String) : List (ℚ × ℚ) :=
  outs.filterMap (fun s => if s.1 = pid then some s.2 else none)

/-! ## Best-checkpoint selection (source lines 630, 746-751)

`min_acc_loss` is initialised to the literal `10`; after each epoch the
best checkpoint is rewritten exactly when `loss_test < min_acc_loss`, and
`min_acc_loss` is then lowered to `loss_test`. -/

/-- Fold of the per-epoch best-checkpoint update over the run's test losses:
entry `k` of the result tells whether the best checkpoint was rewritten
after epoch `k` (source lines 746-751). -/
def bestSaves : ℚ → List ℚ → List Bool
  | _, [] => []
  | m, l :: rest => decide (l < m) :: bestSaves (if l < m then l else m) rest

/-- Initial value of `min_acc_loss` (source line 630). -/
def min_acc_loss_init : ℚ := 10

/-- Which epochs of a run rewrite the best checkpoint. -/
def runSaves (losses : List ℚ) : List Bool :=
  bestSaves min_acc_loss_init losses

/-! ## Patient-level aggregation (source lines 519-526 and 663-667)

For one patient the accumulated softmax vectors are summed into
`ll = [0.0, 0.0]` and then divided by the number of vectors. -/

/-- Aggregate a patient's accumulated per-slice softmax vectors:
componentwise running sum starting from `(0, 0)`, divided by the list
length, exactly as the `for i in dict[key]: ll += i` / `ll /= len` loop. -/
def aggregate (vs : List (ℚ × ℚ)) : ℚ × ℚ :=
  ((vs.foldl (fun acc v => (acc.1 + v.1, acc.2 + v.2)) (0, 0)).1 / vs.length,
   (vs.foldl (fun acc v => (acc.1 + v.1, acc.2 + v.2)) (0, 0)).2 / vs.length)

/-! ### Helper lemmas -/

lemma appliedTransforms_from_test (labelOf : String → ℕ) (pids : List String) (k : ℕ) :
    (appliedTransforms true labelOf Pipeline.test_compose pids).getD k Pipeline.test_compose
      = Pipeline.test_compose := by
  induction pids generalizing k with
  | nil => simp [appliedTransforms]
  | cons pid rest ih =>
    have hcons : appliedTransforms true labelOf Pipeline.test_compose (pid :: rest)
        = Pipeline.test_compose :: appliedTransforms true labelOf Pipeline.test_compose rest := by
      by_cases h : labelOf pid = 2 <;> simp [appliedTransforms, getitemStep, h]
    cases k with
    | zero => rw [hcons]; rfl
    | succ n => rw [hcons, List.getD_cons_succ]; exact ih n

lemma runEpochAccum_apply (d : String → List (ℚ × ℚ)) (outs : List (String × (ℚ × ℚ)))
    (pid : String) :
    runEpochAccum d outs pid = d pid ++ patientOutputs outs pid := by
  induction outs generalizing d with
  | nil => simp [runEpochAccum, patientOutputs]
  | cons s rest ih =>
    have hfold : runEpochAccum d (s :: rest) = runEpochAccum (appendSlice d s) rest := rfl
    rw [hfold, ih]
    by_cases h : s.1 = pid <;> simp [appendSlice, patientOutputs, h]

lemma foldl_runEpochAccum (epochs : List (List (String × (ℚ × ℚ))))
    (d : String → List (ℚ × ℚ)) (pid : String) :
    (epochs.foldl runEpochAccum d) pid
      = d pid ++ (epochs.map (fun e => patientOutputs e pid)).flatten := by
  induction epochs generalizing d with
  | nil => simp
  | cons e rest ih =>
    rw [List.foldl_cons, ih, runEpochAccum_apply]
    simp

lemma bestSaves_getD (m : ℚ) (losses : List ℚ) (k : ℕ) (hk : k < losses.length) :
    ((bestSaves m losses).getD k false = true
      ↔ (losses.getD k 0 < m ∧ ∀ j, j < k → losses.getD k 0 < losses.getD j 0)) := by
  induction losses generalizing m k with
  | nil => simp at hk
  | cons l rest ih =>
    cases k with
    | zero => simp [bestSaves]
    | succ k =>
      have hk' : k < rest.length := by simpa using hk
      have hfold : bestSaves m (l :: rest)
          = decide (l < m) :: bestSaves (if l < m then l else m) rest := rfl
      rw [hfold, List.getD_cons_succ, ih _ k hk', List.getD_cons_succ]
      constructor
      · rintro ⟨h1, h2⟩
        have hml : rest.getD k 0 < m ∧ rest.getD k 0 < l := by
          by_cases hlm : l < m
          · rw [if_pos hlm] at h1; exact ⟨h1.trans hlm, h1⟩
          · rw [if_neg hlm] at h1; exact ⟨h1, h1.trans_le (not_lt.mp hlm)⟩
        refine ⟨hml.1, ?_⟩
        intro j hj
        cases j with
        | zero => simpa using hml.2
        | succ j => rw [List.getD_cons_succ]; exact h2 j (by omega)
      · rintro ⟨h1, h2⟩
        have hl : rest.getD k 0 < l := by simpa using h2 0 (by omega)
        constructor
        · by_cases hlm : l < m
          · rw [if_pos hlm]; exact hl
          · rw [if_neg hlm]; exact h1
        · intro j hj
          have := h2 (j + 1) (by omega)
          rwa [List.getD_cons_succ] at this

lemma foldl_add_pair (vs : List (ℚ × ℚ)) (a b : ℚ) :
    vs.foldl (fun acc v => (acc.1 + v.1, acc.2 + v.2)) (a, b)
      = (a + (vs.map Prod.fst).sum, b + (vs.map Prod.snd).sum) := by
  induction vs generalizing a b with
  | nil => simp
  | cons v rest ih =>
    rw [List.foldl_cons, ih]
    simp only [List.map_cons, List.sum_cons, Prod.mk.injEq]
    exact ⟨by ring, by ring⟩

/-! ### Claim theorems: C2, C3, C4, C5 -/

/-- Patient label map for the C2 counterexample: patient `b` carries the
minority label 2, every other patient the majority label 4. -/
def cexLabelOf : String → ℕ := fun pid => if pid = "b" then 2 else 4

/-- C2 counterexample.  The claim says every minority-label (label 2) slice
receives the randomized train transform regardless of fetch order.  In the
code, fetching any majority-label slice first permanently overwrites
`self.transform` with `test_compose`: with fetch order `[a, b]` the
minority slice `b` receives `test_compose`, while with order `[b, a]` it
receives `train_compose` — the transform is order dependent and the claim
fails on the slice `b` of the first order. -/
theorem C2_counterexample :
    cexLabelOf "b" = 2
    ∧ appliedTransforms true cexLabelOf Pipeline.train_compose ["a", "b"]
        = [Pipeline.test_compose, Pipeline.test_compose]
    ∧ appliedTransforms true cexLabelOf Pipeline.train_compose ["b", "a"]
        = [Pipeline.train_compose, Pipeline.test_compose] := by
  refine ⟨rfl, ?_, ?_⟩ <;> rfl

/-- C2 amended.  During training a majority-label (label 4) slice always
receives the deterministic test transform; a minority-label (label 2)
slice receives the randomized train transform exactly when every slice
fetched before it also carried the minority label — the label-4 branch of
`__getitem__` permanently overwrites the dataset's transform attribute,
so augmentation of minority slices depends on fetch order. -/
theorem C2_amended_thm (labelOf : String → ℕ) (pids : List String) (i : ℕ)
    (hi : i < pids.length) :
    (appliedTransforms true labelOf Pipeline.train_compose pids).getD i Pipeline.test_compose
      = if labelOf (pids.getD i dfltId) = 2
            ∧ (pids.take i).all (fun q => labelOf q == 2) = true
        then Pipeline.train_compose else Pipeline.test_compose := by
  induction pids generalizing i with
  | nil => simp at hi
  | cons pid rest ih =>
    by_cases hp : labelOf pid = 2
    · cases i with
      | zero => simp [appliedTransforms, getitemStep, hp]
      | succ k =>
        have hk : k < rest.length := by simpa using hi
        have hlhs : appliedTransforms true labelOf Pipeline.train_compose (pid :: rest)
            = Pipeline.train_compose ::
                appliedTransforms true labelOf Pipeline.train_compose rest := by
          simp [appliedTransforms, getitemStep, hp]
        rw [hlhs, List.getD_cons_succ, ih k hk]
        simp [hp]
    · cases i with
      | zero => simp [appliedTransforms, getitemStep, hp]
      | succ k =>
        have hlhs : appliedTransforms true labelOf Pipeline.train_compose (pid :: rest)
            = Pipeline.test_compose ::
                appliedTransforms true labelOf Pipeline.test_compose rest := by
          simp [appliedTransforms, getitemStep, hp]
        rw [hlhs, List.getD_cons_succ, appliedTransforms_from_test]
        simp [hp]

/-- C2 witness: the amended theorem applied to the concrete fetch order
`[a, b]` at index 1. -/
theorem C2_witness :
    (1 < (["a", "b"] : List String).length)
    ∧ (appliedTransforms true cexLabelOf Pipeline.train_compose ["a", "b"]).getD 1
          Pipeline.test_compose
        = if cexLabelOf ((["a", "b"] : List String).getD 1 dfltId) = 2
              ∧ ((["a", "b"] : List String).take 1).all (fun q => cexLabelOf q == 2) = true
          then Pipeline.train_compose else Pipeline.test_compose :=
  ⟨by simp, C2_amended_thm cexLabelOf ["a", "b"] 1 (by simp)⟩

/-- C3 counterexample.  The claim says `dict_last` is created fresh at the
start of every training epoch, so each epoch's end state holds only that
epoch's outputs.  With two epochs that each append one softmax vector for
patient `p`, the final accumulator holds both vectors: the epoch-1 vector
leaks into epoch 2, because `dict_last` is built once before the epoch
loop (source line 592) and never cleared. -/
theorem C3_counterexample :
    dict_last_after [[("p", (1/2, 1/2))], [("p", (1/3, 2/3))]] "p"
      = [((1:ℚ)/2, (1:ℚ)/2), ((1:ℚ)/3, (2:ℚ)/3)]
    ∧ dict_last_after [[("p", (1/2, 1/2))], [("p", (1/3, 2/3))]] "p"
      ≠ [((1:ℚ)/3, (2:ℚ)/3)] := by
  have h1 : dict_last_after [[("p", (1/2, 1/2))], [("p", (1/3, 2/3))]] "p"
      = [((1:ℚ)/2, (1:ℚ)/2), ((1:ℚ)/3, (2:ℚ)/3)] := rfl
  refine ⟨h1, ?_⟩
  rw [h1]
  intro h
  have hlen := congrArg List.length h
  simp at hlen

/-- C3 amended.  `dict_last` is created once per run, before the epoch loop,
and never cleared: after any sequence of epochs, each patient's entry is
the concatenation of that patient's per-slice softmax outputs over all
epochs so far, in order — earlier epochs' probability vectors remain in
the accumulator (only the test-time `dict_test` is rebuilt per pass). -/
theorem C3_amended_thm (epochs : List (List (String × (ℚ × ℚ)))) (pid : String) :
    dict_last_after epochs pid = (epochs.map (fun e => patientOutputs e pid)).flatten := by
  rw [dict_last_after, foldl_runEpochAccum]
  simp [dict_last_init]

/-- C4 counterexample.  The claim says the best checkpoint is written exactly
when the epoch's test loss is strictly lower than every prior epoch's.
For a run whose first epoch has test loss 10, the loss is (vacuously)
strictly lower than every prior epoch's, yet no best checkpoint is written
— `min_acc_loss` starts at the literal 10 (source line 630), not at
infinity. -/
theorem C4_counterexample :
    runSaves [(10:ℚ)] = [false]
    ∧ (∀ j, j < 0 → ([(10:ℚ)].getD 0 0 < [(10:ℚ)].getD j 0)) := by
  constructor
  · norm_num [runSaves, bestSaves, min_acc_loss_init]
  · intro j hj; omega

/-- C4 amended.  The best checkpoint is (over)written after epoch `k` exactly
when that epoch's test loss is strictly lower than the initial bound 10
and strictly lower than every prior epoch's test loss; ties and higher
losses never update it. -/
theorem C4_amended_thm (losses : List ℚ) (k : ℕ) (hk : k < losses.length) :
    ((runSaves losses).getD k false = true
      ↔ (losses.getD k 0 < 10 ∧ ∀ j, j < k → losses.getD k 0 < losses.getD j 0)) :=
  bestSaves_getD min_acc_loss_init losses k hk

/-- C4 witness: the amended theorem applied to the one-epoch run with test
loss 5, which does write the best checkpoint. -/
theorem C4_witness :
    (0 < ([(5:ℚ)] : List ℚ).length)
    ∧ ((runSaves [(5:ℚ)]).getD 0 false = true
        ↔ ([(5:ℚ)].getD 0 0 < 10 ∧ ∀ j, j < 0 → [(5:ℚ)].getD 0 0 < [(5:ℚ)].getD j 0)) :=
  ⟨by simp, C4_amended_thm [(5:ℚ)] 0 (by simp)⟩

/-- C5 confirmed.  For every patient with a non-empty accumulated list of
per-slice softmax vectors, the `ll += i` / `ll /= len` loop produces
exactly the arithmetic mean of the accumulated vectors: the componentwise
sum divided by the number of slices. -/
theorem C5_aggregate_mean (vs : List (ℚ × ℚ)) (h : vs ≠ []) :
    aggregate vs = ((vs.map Prod.fst).sum / vs.length, (vs.map Prod.snd).sum / vs.length) := by
  simp only [aggregate]
  rw [foldl_add_pair]
  simp

/-- C5 witness: the claim's own example, softmax vectors `[0.2, 0.8]` and
`[0.4, 0.6]`. -/
theorem C5_witness :
    ([((1:ℚ)/5, (4:ℚ)/5), ((2:ℚ)/5, (3:ℚ)/5)] : List (ℚ × ℚ)) ≠ []
    ∧ aggregate [((1:ℚ)/5, (4:ℚ)/5), ((2:ℚ)/5, (3:ℚ)/5)]
        = (([((1:ℚ)/5, (4:ℚ)/5), ((2:ℚ)/5, (3:ℚ)/5)].map Prod.fst).sum
              / ([((1:ℚ)/5, (4:ℚ)/5), ((2:ℚ)/5, (3:ℚ)/5)] : List (ℚ × ℚ)).length,
           ([((1:ℚ)/5, (4:ℚ)/5), ((2:ℚ)/5, (3:ℚ)/5)].map Prod.snd).sum
              / ([((1:ℚ)/5, (4:ℚ)/5), ((2:ℚ)/5, (3:ℚ)/5)] : List (ℚ × ℚ)).length) :=
  ⟨by simp, C5_aggregate_mean _ (by simp)⟩

/-- The aggregation example evaluated: `[0.2, 0.8]` and `[0.4, 0.6]` average
to `[0.3, 0.7]`. -/
theorem aggregate_mean_example :
    aggregate [((1:ℚ)/5, 4/5), (2/5, 3/5)] = (3/10, 7/10) := by
  norm_num [aggregate]

/-! ## Evaluation-time counts and summary metrics (source lines 549-566)

With `ll_ytrue` the 0/1 true-label vector and `y_pred_binary` the
binarized vector, the source counts
`TP = sum((ytrue == 1) & (pred == 1))`, `TN = sum((ytrue == 0) & (pred == 0))`,
`FP = sum((ytrue == 1) & (pred == 0))`, `FN = sum((ytrue == 0) & (pred == 1))`
(note the unconventional FP/FN orientation is the source's), and then
`SEN = TP/(TP+FN)`, `SPE = TN/(TN+FP)`, `mAP = (SEN+SPE)/2`,
`acc = (TP+TN)/(TP+TN+FP+FN)`.  A numpy quotient `0/0` is NaN, modelled
here as `Option.none`. -/

def TPc (ytrue ypred : List Bool) : ℕ :=
  ((ytrue.zip ypred).filter (fun x => x.1 && x.2)).length

def TNc (ytrue ypred : List Bool) : ℕ :=
  ((ytrue.zip ypred).filter (fun x => !x.1 && !x.2)).length

/-- Source line 559: `FP = np.sum((ll_ytrue == 1) & (y_pred_binary == 0))`. -/
def FPc (ytrue ypred : List Bool) : ℕ :=
  ((ytrue.zip ypred).filter (fun x => x.1 && !x.2)).length

/-- Source line 560: `FN = np.sum((ll_ytrue == 0) & (y_pred_binary == 1))`. -/
def FNc (ytrue ypred : List Bool) : ℕ :=
  ((ytrue.zip ypred).filter (fun x => !x.1 && x.2)).length

/-- `SEN = TP / (TP + FN)` (source line 563); NaN when the denominator is 0. -/
def SENq (ytrue ypred : List Bool) : Option ℚ :=
  if TPc ytrue ypred + FNc ytrue ypred = 0 then none
  else some ((TPc ytrue ypred : ℚ) / ((TPc ytrue ypred + FNc ytrue ypred : ℕ) : ℚ))

/-- `SPE = TN / (TN + FP)` (source line 564); NaN when the denominator is 0. -/
def SPEq (ytrue ypred : List Bool) : Option ℚ :=
  if TNc ytrue ypred + FPc ytrue ypred = 0 then none
  else some ((TNc ytrue ypred : ℚ) / ((TNc ytrue ypred + FPc ytrue ypred : ℕ) : ℚ))

/-- `mAP = (SEN + SPE) / 2` (source line 565); NaN propagates. -/
def mAPq (ytrue ypred : List Bool) : Option ℚ :=
  match SENq ytrue ypred, SPEq ytrue ypred with
  | some s, some p => some ((s + p) / 2)
  | _, _ => none

/-- `acc = (TP + TN) / (TP + TN + FP + FN)` (source line 566). -/
def ACCq (ytrue ypred : List Bool) : Option ℚ :=
  if TPc ytrue ypred + TNc ytrue ypred + FPc ytrue ypred + FNc ytrue ypred = 0 then none
  else some ((TPc ytrue ypred + TNc ytrue ypred : ℕ)
      / ((TPc ytrue ypred + TNc ytrue ypred + FPc ytrue ypred + FNc ytrue ypred : ℕ) : ℚ))

lemma counts_partition (ytrue ypred : List Bool) (hlen : ytrue.length = ypred.length) :
    TPc ytrue ypred + TNc ytrue ypred + FPc ytrue ypred + FNc ytrue ypred
      = ytrue.length := by
  induction ytrue generalizing ypred with
  | nil => simp [TPc, TNc, FPc, FNc]
  | cons a rest ih =>
    cases ypred with
    | nil => simp at hlen
    | cons b brest =>
      have h' : rest.length = brest.length := by simpa using hlen
      have hrec := ih brest h'
      cases a <;> cases b <;>
        simp [TPc, TNc, FPc, FNc, List.filter_cons] at hrec ⊢ <;>
        omega

lemma div_bounds (x y : ℕ) (h : x ≤ y) (hy : y ≠ 0) :
    0 ≤ (x : ℚ) / (y : ℚ) ∧ (x : ℚ) / (y : ℚ) ≤ 1 := by
  have hy' : (0:ℚ) < (y : ℚ) := by exact_mod_cast Nat.pos_of_ne_zero hy
  exact ⟨div_nonneg (by positivity) hy'.le, (div_le_one hy').mpr (by exact_mod_cast h)⟩

/-- C8 counterexample.  The claim says sensitivity, specificity, balanced
accuracy and overall accuracy are well-defined values in `[0, 1]` for any
true-label vector and any binarized prediction vector.  On the input with
one negative patient predicted negative, `TP + FN = 0`, so `SEN = 0/0` is
NaN (modelled `none`), and the balanced accuracy is NaN with it: neither
is a well-defined value in `[0, 1]`. -/
theorem C8_counterexample :
    SENq [false] [false] = none ∧ mAPq [false] [false] = none := by
  exact ⟨rfl, rfl⟩

/-- C8 amended.  Whenever both denominators are non-zero
(`TP + FN ≠ 0` and `TN + FP ≠ 0`), sensitivity, specificity, balanced
accuracy and overall accuracy are all defined and lie in `[0, 1]`; with a
zero denominator the corresponding metric is NaN. -/
theorem C8_amended_thm (ytrue ypred : List Bool)
    (h1 : TPc ytrue ypred + FNc ytrue ypred ≠ 0)
    (h2 : TNc ytrue ypred + FPc ytrue ypred ≠ 0) :
    ∃ s p m a : ℚ,
      SENq ytrue ypred = some s ∧ SPEq ytrue ypred = some p
      ∧ mAPq ytrue ypred = some m ∧ ACCq ytrue ypred = some a
      ∧ 0 ≤ s ∧ s ≤ 1 ∧ 0 ≤ p ∧ p ≤ 1 ∧ 0 ≤ m ∧ m ≤ 1 ∧ 0 ≤ a ∧ a ≤ 1 := by
  obtain ⟨hs0, hs1⟩ := div_bounds (TPc ytrue ypred) (TPc ytrue ypred + FNc ytrue ypred)
    (Nat.le_add_right _ _) h1
  obtain ⟨hp0, hp1⟩ := div_bounds (TNc ytrue ypred) (TNc ytrue ypred + FPc ytrue ypred)
    (Nat.le_add_right _ _) h2
  have htot : TPc ytrue ypred + TNc ytrue ypred + FPc ytrue ypred + FNc ytrue ypred ≠ 0 := by
    omega
  obtain ⟨ha0, ha1⟩ := div_bounds (TPc ytrue ypred + TNc ytrue ypred)
    (TPc ytrue ypred + TNc ytrue ypred + FPc ytrue ypred + FNc ytrue ypred) (by omega) htot
  have hsen : SENq ytrue ypred
      = some ((TPc ytrue ypred : ℚ) / ((TPc ytrue ypred + FNc ytrue ypred : ℕ) : ℚ)) := by
    rw [SENq, if_neg h1]
  have hspe : SPEq ytrue ypred
      = some ((TNc ytrue ypred : ℚ) / ((TNc ytrue ypred + FPc ytrue ypred : ℕ) : ℚ)) := by
    rw [SPEq, if_neg h2]
  have hmap : mAPq ytrue ypred
      = some (((TPc ytrue ypred : ℚ) / ((TPc ytrue ypred + FNc ytrue ypred : ℕ) : ℚ)
          + (TNc ytrue ypred : ℚ) / ((TNc ytrue ypred + FPc ytrue ypred : ℕ) : ℚ)) / 2) := by
    rw [mAPq, hsen, hspe]
  have hacc : ACCq ytrue ypred
      = some ((TPc ytrue ypred + TNc ytrue ypred : ℕ)
          / ((TPc ytrue ypred + TNc ytrue ypred + FPc ytrue ypred + FNc ytrue ypred : ℕ)
              : ℚ)) := by
    rw [ACCq, if_neg htot]
  exact ⟨_, _, _, _, hsen, hspe, hmap, hacc, hs0, hs1, hp0, hp1,
    by linarith, by linarith, ha0, ha1⟩

/-- C8 witness: the amended theorem applied to two patients, one of each
class, both predicted correctly. -/
theorem C8_witness :
    TPc [true, false] [true, false] + FNc [true, false] [true, false] ≠ 0
    ∧ TNc [true, false] [true, false] + FPc [true, false] [true, false] ≠ 0
    ∧ ∃ s p m a : ℚ,
        SENq [true, false] [true, false] = some s
        ∧ SPEq [true, false] [true, false] = some p
        ∧ mAPq [true, false] [true, false] = some m
        ∧ ACCq [true, false] [true, false] = some a
        ∧ 0 ≤ s ∧ s ≤ 1 ∧ 0 ≤ p ∧ p ≤ 1 ∧ 0 ≤ m ∧ m ≤ 1 ∧ 0 ≤ a ∧ a ≤ 1 :=
  ⟨by decide, by decide, C8_amended_thm [true, false] [true, false] (by decide) (by decide)⟩

/-! ## Confusion-matrix cell placement (source lines 418-421, 568-571, 688)

`confusion_matrix(preds, labels, conf_matrix, num)` does
`conf_matrix[t, p] += num` for each `(p, t)` in `zip(preds, labels)`.
After evaluation it is called four times with singleton index lists to
deposit the already-computed TP, TN, FP, FN counts; during training it is
called once per patient with `num = 1` on the raw predicted/true class
indices. -/

def confusion_matrix (preds labels : List (Fin 2)) (conf : Fin 2 → Fin 2 → ℕ) (num : ℕ) :
    Fin 2 → Fin 2 → ℕ :=
  (preds.zip labels).foldl
    (fun m pt => fun t p => if t = pt.2 ∧ p = pt.1 then m t p + num else m t p) conf

def zeroMatrix : Fin 2 → Fin 2 → ℕ := fun _ _ => 0

/-- The evaluation-time matrix, assembled exactly as source lines 568-571:
`confusion_matrix([0],[0],·,TP)`, then `([1],[1],·,TN)`, `([0],[1],·,FP)`,
`([1],[0],·,FN)` on a zero matrix. -/
def testConfMatrix (tp tn fp fn : ℕ) : Fin 2 → Fin 2 → ℕ :=
  confusion_matrix [1] [0]
    (confusion_matrix [0] [1]
      (confusion_matrix [1] [1]
        (confusion_matrix [0] [0] zeroMatrix tp) tn) fp) fn

lemma confusion_matrix_single (p t : Fin 2) (m : Fin 2 → Fin 2 → ℕ) (num : ℕ)
    (t2 p2 : Fin 2) :
    confusion_matrix [p] [t] m num t2 p2
      = if t2 = t ∧ p2 = p then m t2 p2 + num else m t2 p2 := by
  simp [confusion_matrix]

/-- C10 confirmed.  In the evaluation-time matrix the counts land at
`[0][0] = TP`, `[1][1] = TN`, `[1][0] = FP` and `[0][1] = FN` — under the
helper's row-is-true-label, column-is-predicted-label convention, FP sits
at (true = 1, pred = 0) and FN at (true = 0, pred = 1), the transpose of
the conventional placement — while the training-time call increments cell
`[true][pred]` by 1 per patient from the raw class indices. -/
theorem C10_confusion_cells :
    (∀ tp tn fp fn : ℕ,
      testConfMatrix tp tn fp fn 0 0 = tp ∧ testConfMatrix tp tn fp fn 1 1 = tn
      ∧ testConfMatrix tp tn fp fn 1 0 = fp ∧ testConfMatrix tp tn fp fn 0 1 = fn)
    ∧ (∀ (m : Fin 2 → Fin 2 → ℕ) (p t : Fin 2),
        confusion_matrix [p] [t] m 1 t p = m t p + 1) := by
  constructor
  · intro tp tn fp fn
    refine ⟨?_, ?_, ?_, ?_⟩ <;>
      simp [testConfMatrix, confusion_matrix_single, zeroMatrix, Fin.ext_iff]
  · intro m p t
    simp [confusion_matrix_single]

/-! ## Multimodal slice loading (source lines 152-168)

`__getitem__` derives the three companion paths from the canonical T1
path by Python `str.replace` (all occurrences, left to right) and then
calls `Image.open` on each path in the order T1, T2, T1c, FLAIR.
`Image.open` on a missing file raises `FileNotFoundError` carrying the
path; the exception propagates out of `__getitem__`, so no tensor is
returned.  The file system is modelled as a partial map from paths to
images, and the propagated exception as `Except.error`. -/

/-- Whether `pat` occurs at the head of the second list. -/
def matchesAt : List Char → List Char → Bool
  | [], _ => true
  | _ :: _, [] => false
  | p :: ps, c :: cs => p == c && matchesAt ps cs

/-- Worker for Python `str.replace`: scan left to right, skipping `skip`
characters of an already-matched occurrence, replacing each match of
`pat` by `rep`. -/
def replaceAux (pat rep : List Char) : ℕ → List Char → List Char
  | _, [] => []
  | Nat.succ k, _ :: rest => replaceAux pat rep k rest
  | 0, c :: rest =>
    if matchesAt pat (c :: rest) then rep ++ replaceAux pat rep (pat.length - 1) rest
    else c :: replaceAux pat rep 0 rest

/-- Python `s.replace(pat, rep)` for a non-empty pattern. -/
def pyReplace (s pat rep : List Char) : List Char := replaceAux pat rep 0 s

/-- `img_t1_path.replace('T1', 'T2')` (source line 154). -/
def t2Path (canonical : List Char) : List Char :=
  pyReplace canonical ['T', '1'] ['T', '2']

/-- `img_t1_path.replace('T1', 'T1c')` (source line 155). -/
def t1cPath (canonical : List Char) : List Char :=
  pyReplace canonical ['T', '1'] ['T', '1', 'c']

/-- `img_t1_path.replace('T1', 'FLAIR')` (source line 156). -/
def flairPath (canonical : List Char) : List Char :=
  pyReplace canonical ['T', '1'] ['F', 'L', 'A', 'I', 'R']

/-- The four modality files a slice record needs, in open order. -/
def companionPaths (canonical : List Char) : List (List Char) :=
  [canonical, t2Path canonical, t1cPath canonical, flairPath canonical]

inductive LoadError where
  | fileNotFound : List Char → LoadError

/-- `Image.open`: the image at the path, or a raised `FileNotFoundError`
naming the path. -/
def openImage {α : Type} (fs : List Char → Option α) (p : List Char) :
    Except LoadError α :=
  match fs p with
  | some img => Except.ok img
  | none => Except.error (LoadError.fileNotFound p)

/-- The image-loading portion of `__getitem__` (source lines 152-168): open
the canonical image and its three substituted companions in source order;
any raised error aborts the call. -/
def loadSliceImages {α : Type} (fs : List Char → Option α) (canonical : List Char) :
    Except LoadError (α × α × α × α) :=
  match openImage fs canonical with
  | Except.error e => Except.error e
  | Except.ok img_t1 =>
    match openImage fs (t2Path canonical) with
    | Except.error e => Except.error e
    | Except.ok img_t2 =>
      match openImage fs (t1cPath canonical) with
      | Except.error e => Except.error e
      | Except.ok img_t1c =>
        match openImage fs (flairPath canonical) with
        | Except.error e => Except.error e
        | Except.ok img_flair => Except.ok (img_t1, img_t2, img_t1c, img_flair)

/-- C9 confirmed.  If any of the four modality files of a slice record is
missing — in particular the FLAIR-substituted companion — then loading the
slice propagates a file-not-found error naming a missing path, and no
stacked tensor (with or without a zero-filled channel) is returned. -/
theorem C9_missing_modality {α : Type} (fs : List Char → Option α) (canonical : List Char)
    (h : ∃ p, p ∈ companionPaths canonical ∧ fs p = none) :
    ∃ p, loadSliceImages fs canonical = Except.error (LoadError.fileNotFound p)
      ∧ fs p = none := by
  by_cases h1 : fs canonical = none
  · exact ⟨canonical, by simp [loadSliceImages, openImage, h1], h1⟩
  · obtain ⟨v1, hv1⟩ := Option.ne_none_iff_exists'.mp h1
    by_cases h2 : fs (t2Path canonical) = none
    · exact ⟨t2Path canonical, by simp [loadSliceImages, openImage, hv1, h2], h2⟩
    · obtain ⟨v2, hv2⟩ := Option.ne_none_iff_exists'.mp h2
      by_cases h3 : fs (t1cPath canonical) = none
      · exact ⟨t1cPath canonical, by simp [loadSliceImages, openImage, hv1, hv2, h3], h3⟩
      · obtain ⟨v3, hv3⟩ := Option.ne_none_iff_exists'.mp h3
        by_cases h4 : fs (flairPath canonical) = none
        · exact ⟨flairPath canonical,
            by simp [loadSliceImages, openImage, hv1, hv2, hv3, h4], h4⟩
        · exfalso
          obtain ⟨p, hp, hnone⟩ := h
          simp only [companionPaths, List.mem_cons, List.not_mem_nil, or_false] at hp
          rcases hp with rfl | rfl | rfl | rfl
          · exact h1 hnone
          · exact h2 hnone
          · exact h3 hnone
          · exact h4 hnone

/-- Canonical path for the C9 witness. -/
def canonicalEx : List Char := ['T', '1', 'x']

/-- A file system holding only the canonical T1 image, so every substituted
companion (T2, T1c, FLAIR) is missing. -/
def fsEx : List Char → Option ℕ := fun p => if p = canonicalEx then some 0 else none

/-- C9 witness: loading the slice whose companions are all missing
propagates a file-not-found error for a missing path. -/
theorem C9_witness :
    (∃ p, p ∈ companionPaths canonicalEx ∧ fsEx p = none)
    ∧ ∃ p, loadSliceImages fsEx canonicalEx = Except.error (LoadError.fileNotFound p)
        ∧ fsEx p = none :=
  ⟨⟨t2Path canonicalEx, by decide, by decide⟩,
   C9_missing_modality fsEx canonicalEx ⟨t2Path canonicalEx, by decide, by decide⟩⟩

/-! ## sklearn `metrics.roc_curve` and `statis_auc` (source lines 454-464)

`roc_curve(y_true, y_score)` sorts the scores descending with a stable
mergesort (`np.argsort(kind="mergesort")[::-1]`), takes the cumulative
positive counts at the ends of equal-score blocks, drops interior points
whose second differences of both `fps` and `tps` vanish
(`drop_intermediate=True`, computed on the original arrays), prepends the
(0, 0) point with threshold `thresholds[0] + 1`, and divides by the
totals.  A stable insertion sort is used here: stability plus sortedness
determine the output list uniquely, so it equals numpy's stable
mergesort, and the reversal reproduces the tie order of
`argsort(...)[::-1]`. -/

/-- Stable ascending insertion by score. -/
def insertAsc (p : ℚ × Bool) : List (ℚ × Bool) → List (ℚ × Bool)
  | [] => [p]
  | q :: rest => if p.1 ≤ q.1 then p :: q :: rest else q :: insertAsc p rest

/-- Stable ascending sort by score. -/
def sortAsc : List (ℚ × Bool) → List (ℚ × Bool)
  | [] => []
  | p :: rest => insertAsc p (sortAsc rest)

/-- Walk the descending-sorted (score, label) pairs; at the end of every
equal-score block emit (cumulative positive count, cumulative total
count, block score) — sklearn's `tps`, `1 + threshold_idxs`, and
`thresholds` of `_binary_clf_curve`; `fps` is total minus positives. -/
def clfCurveAux : ℕ → ℕ → List (ℚ × Bool) → List (ℕ × ℕ × ℚ)
  | _, _, [] => []
  | tp, cnt, (s, y) :: [] => [(tp + (if y then 1 else 0), cnt + 1, s)]
  | tp, cnt, (s, y) :: (s2, y2) :: rest =>
    if s2 = s then clfCurveAux (tp + (if y then 1 else 0)) (cnt + 1) ((s2, y2) :: rest)
    else (tp + (if y then 1 else 0), cnt + 1, s)
        :: clfCurveAux (tp + (if y then 1 else 0)) (cnt + 1) ((s2, y2) :: rest)

def binary_clf_curve (ytrue : List Bool) (yscore : List ℚ) : List (ℕ × ℕ × ℚ) :=
  clfCurveAux 0 0 ((sortAsc (yscore.zip ytrue)).reverse)

/-- Second differences of both `fps` and `tps` vanish at the middle point
(`np.diff(fps, 2)` and `np.diff(tps, 2)` both zero), written without
subtraction of naturals. -/
def collinear (prev cur next : ℕ × ℕ × ℚ) : Bool :=
  ((prev.2.1 - prev.1) + (next.2.1 - next.1) == 2 * (cur.2.1 - cur.1))
    && (prev.1 + next.1 == 2 * cur.1)

/-- Drop the interior collinear points; `prev` is always the point's
predecessor in the original list, matching numpy's all-at-once second
difference. -/
def dropAux (prev : ℕ × ℕ × ℚ) : List (ℕ × ℕ × ℚ) → List (ℕ × ℕ × ℚ)
  | [] => []
  | cur :: [] => [cur]
  | cur :: next :: rest =>
    if collinear prev cur next then dropAux cur (next :: rest)
    else cur :: dropAux cur (next :: rest)

/-- `drop_intermediate` applies only when the curve has more than two
points; the first and last points are always kept. -/
def dropIntermediate (l : List (ℕ × ℕ × ℚ)) : List (ℕ × ℕ × ℚ) :=
  match l with
  | a :: b :: c :: rest => a :: dropAux a (b :: c :: rest)
  | _ => l

structure Roc where
  fpr : List ℚ
  tpr : List ℚ
  thresholds : List ℚ

def rocPoints (ytrue : List Bool) (yscore : List ℚ) : List (ℕ × ℕ × ℚ) :=
  dropIntermediate (binary_clf_curve ytrue yscore)

/-- `tps[-1]`: the total number of positives. -/
def totalPos (ytrue : List Bool) (yscore : List ℚ) : ℕ :=
  ((rocPoints ytrue yscore).getLastD (0, 0, 0)).1

/-- Total number of samples (last cumulative count). -/
def totalCnt (ytrue : List Bool) (yscore : List ℚ) : ℕ :=
  ((rocPoints ytrue yscore).getLastD (0, 0, 0)).2.1

/-- `metrics.roc_curve` with `drop_intermediate=True`: the (0, 0) point is
prepended with threshold `thresholds[0] + 1` (recent sklearn uses `inf`
there; no claim depends on that value), then `fpr = fps / fps[-1]` and
`tpr = tps / tps[-1]`. -/
def roc_curve (ytrue : List Bool) (yscore : List ℚ) : Roc :=
  Roc.mk
    ((0 :: (rocPoints ytrue yscore).map (fun c => c.2.1 - c.1)).map
      (fun v => (v : ℚ) / ((totalCnt ytrue yscore - totalPos ytrue yscore : ℕ) : ℚ)))
    ((0 :: (rocPoints ytrue yscore).map (fun c => c.1)).map
      (fun v => (v : ℚ) / ((totalPos ytrue yscore : ℕ) : ℚ)))
    ((((rocPoints ytrue yscore).headD (0, 0, 0)).2.2 + 1)
      :: (rocPoints ytrue yscore).map (fun c => c.2.2))

/-- `np.argmax`: index of the first occurrence of the maximum. -/
def np_argmax : List ℚ → ℕ
  | [] => 0
  | _ :: [] => 0
  | x :: y :: rest =>
    if x < (y :: rest).getD (np_argmax (y :: rest)) 0 then np_argmax (y :: rest) + 1
    else 0

/-- `np.trapz` over consecutive points of the piecewise-linear curve. -/
def trapezoid : List (ℚ × ℚ) → ℚ
  | [] => 0
  | _ :: [] => 0
  | (x1, y1) :: (x2, y2) :: rest => (x2 - x1) * (y1 + y2) / 2 + trapezoid ((x2, y2) :: rest)

/-- `metrics.auc(fpr, tpr)` (the fpr axis is non-decreasing, so the
direction factor is 1). -/
def sk_auc (x y : List ℚ) : ℚ := trapezoid (x.zip y)

/-- `y = tpr - fpr` (source line 457). -/
def youdenDiffs (ytrue : List Bool) (ypred : List ℚ) : List ℚ :=
  List.zipWith (fun a b => a - b) (roc_curve ytrue ypred).tpr (roc_curve ytrue ypred).fpr

/-- `youden_index = np.argmax(y)` (source line 458). -/
def youden_index (ytrue : List Bool) (ypred : List ℚ) : ℕ :=
  np_argmax (youdenDiffs ytrue ypred)

/-- `statis_auc` (source lines 454-464): the Youden-optimal threshold, the
ROC point at it, the fpr and tpr arrays, and the AUC. -/
def statis_auc (ytrue : List Bool) (ypred : List ℚ) :
    ℚ × (ℚ × ℚ) × List ℚ × List ℚ × ℚ :=
  ((roc_curve ytrue ypred).thresholds.getD (youden_index ytrue ypred) 0,
   ((roc_curve ytrue ypred).fpr.getD (youden_index ytrue ypred) 0,
    (roc_curve ytrue ypred).tpr.getD (youden_index ytrue ypred) 0),
   (roc_curve ytrue ypred).fpr,
   (roc_curve ytrue ypred).tpr,
   sk_auc (roc_curve ytrue ypred).fpr (roc_curve ytrue ypred).tpr)

/-- Source line 555: `y_pred_binary = (ll_ytrue >= optimal_threshold).astype(int)`
— the TRUE-LABEL vector (entries 0/1), not the score vector `ll_ypred`,
is compared against the threshold. -/
def y_pred_binary (ll_ytrue : List Bool) (thr : ℚ) : List Bool :=
  ll_ytrue.map (fun t => decide (thr ≤ (if t then (1:ℚ) else 0)))

structure EvalOut where
  threshold : ℚ
  ypredbin : List Bool
  TP : ℕ
  TN : ℕ
  FP : ℕ
  FN : ℕ

/-- The threshold-selection, binarization and counting portion of `test`
(source lines 552-560). -/
def evalMetrics (ll_ytrue : List Bool) (ll_ypred : List ℚ) : EvalOut :=
  EvalOut.mk (statis_auc ll_ytrue ll_ypred).1
    (y_pred_binary ll_ytrue (statis_auc ll_ytrue ll_ypred).1)
    (TPc ll_ytrue (y_pred_binary ll_ytrue (statis_auc ll_ytrue ll_ypred).1))
    (TNc ll_ytrue (y_pred_binary ll_ytrue (statis_auc ll_ytrue ll_ypred).1))
    (FPc ll_ytrue (y_pred_binary ll_ytrue (statis_auc ll_ytrue ll_ypred).1))
    (FNc ll_ytrue (y_pred_binary ll_ytrue (statis_auc ll_ytrue ll_ypred).1))

/-- Number of positions where the binarized prediction differs from the
true label. -/
def misclassCount (ytrue ypred : List Bool) : ℕ :=
  ((ytrue.zip ypred).filter (fun x => x.1 != x.2)).length

/-! ### np.argmax lemmas -/

lemma np_argmax_lt_length (l : List ℚ) (h : l ≠ []) : np_argmax l < l.length := by
  induction l with
  | nil => simp at h
  | cons x rest ih =>
    cases rest with
    | nil => simp [np_argmax]
    | cons y rrest =>
      simp only [np_argmax]
      by_cases hx : x < (y :: rrest).getD (np_argmax (y :: rrest)) 0
      · rw [if_pos hx]
        have := ih (by simp)
        simp only [List.length_cons] at this ⊢
        omega
      · rw [if_neg hx]
        simp

lemma np_argmax_le (l : List ℚ) (k : ℕ) (hk : k < l.length) :
    l.getD k 0 ≤ l.getD (np_argmax l) 0 := by
  induction l generalizing k with
  | nil => simp at hk
  | cons x rest ih =>
    cases rest with
    | nil =>
      have hk0 : k = 0 := by simpa using hk
      subst hk0
      simp [np_argmax]
    | cons y rrest =>
      simp only [np_argmax]
      by_cases hx : x < (y :: rrest).getD (np_argmax (y :: rrest)) 0
      · rw [if_pos hx, List.getD_cons_succ]
        cases k with
        | zero => rw [List.getD_cons_zero]; exact hx.le
        | succ k' => rw [List.getD_cons_succ]; exact ih k' (by simpa using hk)
      · rw [if_neg hx, List.getD_cons_zero]
        cases k with
        | zero => rw [List.getD_cons_zero]
        | succ k' =>
          rw [List.getD_cons_succ]
          exact (ih k' (by simpa using hk)).trans (not_lt.mp hx)

lemma np_argmax_first (l : List ℚ) (k : ℕ) (hk : k < np_argmax l) :
    l.getD k 0 < l.getD (np_argmax l) 0 := by
  induction l generalizing k with
  | nil => simp [np_argmax] at hk
  | cons x rest ih =>
    cases rest with
    | nil => simp [np_argmax] at hk
    | cons y rrest =>
      simp only [np_argmax] at hk ⊢
      by_cases hx : x < (y :: rrest).getD (np_argmax (y :: rrest)) 0
      · rw [if_pos hx] at hk ⊢
        rw [List.getD_cons_succ]
        cases k with
        | zero => rw [List.getD_cons_zero]; exact hx
        | succ k' =>
          rw [List.getD_cons_succ]
          exact ih k' (by omega)
      · rw [if_neg hx] at hk
        omega

lemma youdenDiffs_ne_nil (ytrue : List Bool) (ypred : List ℚ) :
    youdenDiffs ytrue ypred ≠ [] := by
  simp [youdenDiffs, roc_curve]

/-! ### Claim theorems: C1, C6, C7 -/

/-- C6 confirmed.  The selected threshold is the curve's threshold at
`np.argmax(tpr - fpr)`; no point of the computed ROC curve has a strictly
larger `tpr - fpr`, and every point strictly before the selected index
has a strictly smaller value, so ties resolve to the first-occurring
maximum in the curve's native ordering.  (The two-class and equal-length
hypotheses mirror the claim's restriction to non-degenerate curves.) -/
theorem C6_youden_argmax (ytrue : List Bool) (ypred : List ℚ)
    (hpos : true ∈ ytrue) (hneg : false ∈ ytrue)
    (hlen : ytrue.length = ypred.length) :
    (statis_auc ytrue ypred).1
        = (roc_curve ytrue ypred).thresholds.getD (youden_index ytrue ypred) 0
    ∧ youden_index ytrue ypred < (youdenDiffs ytrue ypred).length
    ∧ (∀ k, k < (youdenDiffs ytrue ypred).length →
        (youdenDiffs ytrue ypred).getD k 0
          ≤ (youdenDiffs ytrue ypred).getD (youden_index ytrue ypred) 0)
    ∧ (∀ k, k < youden_index ytrue ypred →
        (youdenDiffs ytrue ypred).getD k 0
          < (youdenDiffs ytrue ypred).getD (youden_index ytrue ypred) 0) :=
  ⟨rfl, np_argmax_lt_length _ (youdenDiffs_ne_nil ytrue ypred),
   fun k hk => np_argmax_le _ k hk, fun k hk => np_argmax_first _ k hk⟩

/-- C6 witness: the theorem applied to one negative and one positive patient
with scores 0.25 and 0.75. -/
theorem C6_witness :
    (true ∈ [false, true]) ∧ (false ∈ [false, true])
    ∧ ([false, true] : List Bool).length = ([(1:ℚ)/4, 3/4] : List ℚ).length
    ∧ ((statis_auc [false, true] [(1:ℚ)/4, 3/4]).1
          = (roc_curve [false, true] [(1:ℚ)/4, 3/4]).thresholds.getD
              (youden_index [false, true] [(1:ℚ)/4, 3/4]) 0
        ∧ youden_index [false, true] [(1:ℚ)/4, 3/4]
            < (youdenDiffs [false, true] [(1:ℚ)/4, 3/4]).length
        ∧ (∀ k, k < (youdenDiffs [false, true] [(1:ℚ)/4, 3/4]).length →
            (youdenDiffs [false, true] [(1:ℚ)/4, 3/4]).getD k 0
              ≤ (youdenDiffs [false, true] [(1:ℚ)/4, 3/4]).getD
                  (youden_index [false, true] [(1:ℚ)/4, 3/4]) 0)
        ∧ (∀ k, k < youden_index [false, true] [(1:ℚ)/4, 3/4] →
            (youdenDiffs [false, true] [(1:ℚ)/4, 3/4]).getD k 0
              < (youdenDiffs [false, true] [(1:ℚ)/4, 3/4]).getD
                  (youden_index [false, true] [(1:ℚ)/4, 3/4]) 0)) :=
  ⟨by decide, by decide, by decide,
   C6_youden_argmax [false, true] [(1:ℚ)/4, 3/4] (by decide) (by decide) (by decide)⟩

/-- C7 confirmed.  For every evaluation input (one 0/1 true label and one
aggregated score per test patient) the four counts TP, TN, FP, FN of the
evaluator sum to exactly the number of test patients, whatever threshold
was selected. -/
theorem C7_conservation (ll_ytrue : List Bool) (ll_ypred : List ℚ) :
    (evalMetrics ll_ytrue ll_ypred).TP + (evalMetrics ll_ytrue ll_ypred).TN
      + (evalMetrics ll_ytrue ll_ypred).FP + (evalMetrics ll_ytrue ll_ypred).FN
      = ll_ytrue.length := by
  have hlen : ll_ytrue.length
      = (y_pred_binary ll_ytrue (statis_auc ll_ytrue ll_ypred).1).length := by
    simp [y_pred_binary]
  simpa [evalMetrics] using counts_partition ll_ytrue
    (y_pred_binary ll_ytrue (statis_auc ll_ytrue ll_ypred).1) hlen

/-- The spec's three-patient scenario evaluated on the embedded code: true
labels `[0, 1, 0]`, scores `[0.2, 0.8, 0.6]`.  The Youden-optimal
threshold on the computed curve is 0.8, and binarizing the TRUE-LABEL
vector against it yields `[0, 1, 0]` with TP = 1, TN = 2, FP = 0,
FN = 0. -/
lemma scenario_eval :
    evalMetrics [false, true, false] [(1:ℚ)/5, 4/5, 3/5]
      = EvalOut.mk ((4:ℚ)/5) [false, true, false] 1 2 0 0 := by
  norm_num [evalMetrics, statis_auc, youden_index, youdenDiffs, roc_curve, rocPoints,
    binary_clf_curve, sortAsc, insertAsc, clfCurveAux, dropIntermediate, dropAux,
    collinear, totalPos, totalCnt, np_argmax, y_pred_binary, TPc, TNc, FPc, FNc,
    List.filter_cons]

/-- C1 counterexample.  On the claim's own scenario — true labels
`[0, 1, 0]`, aggregated scores `[0.2, 0.8, 0.6]` — the code's binarized
vector is `[0, 1, 0]`, not the claimed `[0, 1, 1]`, and there are zero
misclassifications, not one: line 555 binarizes the true-label vector
`ll_ytrue`, not the patient scores, and the Youden-optimal threshold on
this curve is 0.8, not 0.6. -/
theorem C1_counterexample :
    (evalMetrics [false, true, false] [(1:ℚ)/5, 4/5, 3/5]).ypredbin ≠ [false, true, true]
    ∧ misclassCount [false, true, false]
        ((evalMetrics [false, true, false] [(1:ℚ)/5, 4/5, 3/5]).ypredbin) = 0 := by
  refine ⟨?_, ?_⟩
  · rw [scenario_eval]; decide
  · rw [scenario_eval]; decide

/-- C1 amended.  After the Youden-optimal threshold is selected, every
patient's TRUE LABEL (as 0/1) — not the aggregated positive-class score —
is compared against the threshold (`ll_ytrue >= threshold`), and TP, TN,
FP, FN are computed from those label-derived predictions together with
the true labels.  For the three test patients with true labels
`[0, 1, 0]` and scores `[0.2, 0.8, 0.6]` the selected threshold is 0.8,
the resulting predictions are `[0, 1, 0]` with zero misclassifications,
and TP = 1, TN = 2, FP = 0, FN = 0 (summing to 3). -/
theorem C1_amended_thm :
    (∀ yt yp, (evalMetrics yt yp).ypredbin = y_pred_binary yt (statis_auc yt yp).1)
    ∧ evalMetrics [false, true, false] [(1:ℚ)/5, 4/5, 3/5]
        = EvalOut.mk ((4:ℚ)/5) [false, true, false] 1 2 0 0
    ∧ misclassCount [false, true, false]
        ((evalMetrics [false, true, false] [(1:ℚ)/5, 4/5, 3/5]).ypredbin) = 0 := by
  refine ⟨fun yt yp => rfl, scenario_eval, ?_⟩
  rw [scenario_eval]; decide

end MM
